import Mathlib

/-!
# Verification of the kioku offline-first flashcard backend

Shallow embedding, in Lean 4, of the sync-status state machine, the sync
queue drain pass, the quiz-grading engine and the local user password
check of the kioku application (`src-tauri/src/local_db.rs`,
`src-tauri/src/db/stats.rs`, `src-tauri/src/db/users.rs`,
`src-tauri/src/db.rs`), together with theorems settling the specification
claims about those components.  (`db/stats.rs` and `db/users.rs` contain
verbatim copies of the grading, attempt-submission and password functions
of `local_db.rs`, so one embedding covers both.)

Modelling conventions:
* SQL rows become Lean structures; a table becomes a `List` of rows.
* RFC3339 timestamps handled through the clock capability (`now`,
  duration-between-timestamps) are modelled as `Int` epoch seconds where
  only arithmetic on them matters, and as `String` where only their
  stored text ordering matters (the sync queue `created_at` column).
* Rust `i32`/`i64` become `Int`; the two narrowing casts the code
  performs are modelled explicitly (`wrapI32` for `as i32` on integers,
  `clampI32` for the saturating float-to-int cast).
* The score computation in `submit_quiz_attempt` uses `f64` arithmetic;
  it is modelled exactly by `flQ`, correct rounding of a rational to the
  nearest binary64 value (round to nearest, ties to even), which is the
  IEEE-754 semantics of Rust's `/` and `*` on `f64` for inputs in the
  normal range (all values this program produces are in that range).
* Rust string splitting, trimming and byte-lexicographic comparison are
  re-implemented structurally on `List Char` so that every grading
  function evaluates by `decide`; on the ASCII data involved these agree
  with Rust's `str::split`, `str::trim` and `Ord for str`.
* Fallible database reads become `Except String` results, mirroring the
  `Result<_, String>` returns of the source.
-/

namespace Kioku

/-! ## Sync status (`local_db.rs`, `SyncStatus`) -/

inductive SyncStatus where
  | localOnly
  | synced
  | pendingSync
  | conflict
  deriving DecidableEq, Repr

def SyncStatus.asStr : SyncStatus → String
  | .localOnly => "local_only"
  | .synced => "synced"
  | .pendingSync => "pending_sync"
  | .conflict => "conflict"

def SyncStatus.fromStr (s : String) : SyncStatus :=
  match s with
  | "synced" => .synced
  | "pending_sync" => .pendingSync
  | "conflict" => .conflict
  | _ => .localOnly

/-! ## Machine-integer casts -/

/-- Rust `as i32` on an integer value: two's-complement wrap. -/
def wrapI32 (z : Int) : Int := (z + 2 ^ 31) % 2 ^ 32 - 2 ^ 31

/-- Rust `as i32` on an `f64` value (here always integral): saturating cast. -/
def clampI32 (z : Int) : Int :=
  if z < -(2 ^ 31) then -(2 ^ 31) else if (2 : Int) ^ 31 - 1 < z then 2 ^ 31 - 1 else z

/-! ## Binary64 rounding model

`flQ x` is the rational value of the IEEE-754 binary64 number nearest to
`x` (ties to even), for positive `x`; this is the value Rust's
correctly-rounded `f64` division and multiplication produce on
normal-range operands.  `Int.log 2 x` is the binade exponent `e` with
`2 ^ e ≤ x < 2 ^ (e + 1)`. -/

/-- Round a rational to the nearest integer, ties to the even
integer. -/
def roundTiesEven (y : ℚ) : ℤ :=
  if y - (⌊y⌋ : ℚ) < 1 / 2 then ⌊y⌋
  else if 1 / 2 < y - (⌊y⌋ : ℚ) then ⌊y⌋ + 1
  else if ⌊y⌋ % 2 = 0 then ⌊y⌋ else ⌊y⌋ + 1

/-- The 53-bit significand of `x` rounded to nearest (ties to even):
the integer within `1/2` of `x * 2 ^ (52 - Int.log 2 x)`. -/
def flMant (x : ℚ) : ℤ := roundTiesEven (x * 2 ^ ((52 : ℤ) - Int.log 2 x))

/-- Round a rational to the nearest binary64 value (ties to even).
Nonpositive inputs (only `x = 0` occurs in this development) map to `0`. -/
def flQ (x : ℚ) : ℚ :=
  if x ≤ 0 then 0 else (flMant x : ℚ) * 2 ^ (Int.log 2 x - 52)

/-- `((correct as f64 / total as f64) * 100.0).round() as i32`
(`local_db.rs`, `submit_quiz_attempt`): both `f64` operations correctly
rounded, then rounding half away from zero (the arguments are
nonnegative, so that is `⌊z + 1/2⌋`), then the saturating cast. -/
def scoreF64 (correct total : Int) : Int :=
  clampI32 ⌊flQ (flQ ((correct : ℚ) / (total : ℚ)) * 100) + 1 / 2⌋

/-- Modelled from the spec: `round(correctAnswers / totalQuestions * 100)`
with exact (real-number) rounding, half away from zero.  Stated only to
compare the spec's formula with the source's `f64` computation. -/
def specRound (correct total : Int) : Int :=
  ⌊(correct : ℚ) * 100 / (total : ℚ) + 1 / 2⌋

/-! ## Structural string helpers

Rust's `str::split(',')`, `str::trim` and the `Ord`-instance comparison
used by `Vec::sort`, re-implemented by structural recursion on the
character list so they evaluate inside `decide`. -/

/-- Worker for `splitChar`: `acc` holds the current chunk reversed. -/
def splitCharAux (c : Char) : List Char → List Char → List (List Char)
  | [], acc => [acc.reverse]
  | x :: xs, acc =>
    if x = c then acc.reverse :: splitCharAux c xs []
    else splitCharAux c xs (x :: acc)

/-- Rust `s.split(c)`: every separator produces a chunk boundary, the
empty string yields one empty chunk. -/
def splitChar (c : Char) (s : String) : List String :=
  (splitCharAux c s.data []).map fun l => ⟨l⟩

/-- Rust `str::trim`: drop whitespace from both ends. -/
def trimStr (s : String) : String :=
  ⟨((s.data.dropWhile Char.isWhitespace).reverse.dropWhile Char.isWhitespace).reverse⟩

/-- Byte-lexicographic `≤` on character lists (UTF-8 byte order equals
code-point order, which is Rust's `Ord for str`). -/
def charListLe : List Char → List Char → Bool
  | [], _ => true
  | _ :: _, [] => false
  | a :: as, b :: bs =>
    if a < b then true
    else if b < a then false
    else charListLe as bs

/-- Rust's `Ord for str` comparison, as a Boolean `≤`. -/
def strLe (a b : String) : Bool := charListLe a.data b.data

/-- `Vec::sort` on strings: sorting by `strLe` (sortedness and the
permutation property determine the result uniquely, so any correct
sorting algorithm models Rust's stable sort). -/
def sortStrings (l : List String) : List String :=
  List.insertionSort (fun a b => strLe a b = true) l

end Kioku

namespace Kioku

/-! ## Quiz data model (`local_db.rs` / `db/stats.rs`)

Rows of the `questions`, `choices`, `quiz_attempts` and
`question_results` tables.  Presentation columns are carried along
unchanged; the `question_type` column is the raw stored string, which is
what `grade_answer` dispatches on. -/

structure Choice where
  id : String
  questionId : String
  text : String
  isCorrect : Bool
  position : Int
  deriving DecidableEq, Repr

structure Question where
  id : String
  quizId : String
  questionType : String
  content : String
  contentType : String
  contentLanguage : Option String
  correctAnswer : Option String
  multipleAnswers : Bool
  explanation : Option String
  position : Int
  createdAt : String
  updatedAt : String
  deriving DecidableEq, Repr

structure QuizDb where
  questions : List Question
  choices : List Choice
  deriving DecidableEq, Repr

structure QuizAttemptRow where
  id : String
  quizId : String
  startedAt : Int
  completedAt : Option Int
  durationSeconds : Option Int
  totalQuestions : Int
  correctAnswers : Int
  scorePercentage : Int
  deriving DecidableEq, Repr

structure QuestionAnswer where
  questionId : String
  answer : String
  deriving DecidableEq, Repr

/-- A `question_results` row; the generated UUID primary key is
produced by the identity capability and omitted. -/
structure QuestionResultRow where
  attemptId : String
  questionId : String
  userAnswer : String
  isCorrect : Bool
  deriving DecidableEq, Repr

/-- `UpdateQuestionRequest` (`local_db.rs`): `question_type` is an
arbitrary caller-supplied string. -/
structure UpdateQuestionRequest where
  questionType : String
  content : String
  contentType : Option String
  contentLanguage : Option String
  correctAnswer : Option String
  multipleAnswers : Option Bool
  explanation : Option String
  deriving DecidableEq, Repr

/-! ## Quiz grading engine -/

/-- The `correct_ids` query of `grade_answer`:
`SELECT id FROM choices WHERE question_id = ?1 AND is_correct = 1`. -/
def correctIds (db : QuizDb) (questionId : String) : List String :=
  (db.choices.filter (fun c => c.questionId == questionId && c.isCorrect)).map
    (fun c => c.id)

/-- The `user_ids` parse of `grade_answer`:
`user_answer.split(',').map(|s| s.trim())`. -/
def userIds (userAnswer : String) : List String :=
  (splitChar ',' userAnswer).map trimStr

/-- `grade_answer` (`local_db.rs` and, verbatim, `db/stats.rs`):
look the question up by id; `fill_in_blank` compares the submitted text
with `correct_answer` exactly; `multiple_choice` compares the sorted
trimmed comma-separated submitted ids with the sorted ids of the
choices flagged correct; any other stored `question_type` grades as
`false`. -/
def gradeAnswer (db : QuizDb) (questionId userAnswer : String) : Except String Bool :=
  match db.questions.find? (fun q => q.id == questionId) with
  | none => .error "Question not found"
  | some q =>
    match q.questionType with
    | "fill_in_blank" => .ok (q.correctAnswer == some userAnswer)
    | "multiple_choice" =>
      .ok (sortStrings (userIds userAnswer) == sortStrings (correctIds db questionId))
    | _ => .ok false

/-- The grading loop of `submit_quiz_attempt`: grade each answer in
order, recording a `question_results` row; a missing question aborts
with the propagated error. -/
def gradeAnswers (db : QuizDb) (attemptId : String) :
    List QuestionAnswer → Except String (List QuestionResultRow)
  | [] => .ok []
  | a :: rest =>
    match gradeAnswer db a.questionId a.answer with
    | .error e => .error e
    | .ok b =>
      match gradeAnswers db attemptId rest with
      | .error e => .error e
      | .ok rs =>
        .ok ({ attemptId := attemptId, questionId := a.questionId,
               userAnswer := a.answer, isCorrect := b } :: rs)

/-- `submit_quiz_attempt` (`local_db.rs` and, verbatim, `db/stats.rs`):
look up the attempt, compute `duration = (now - started_at) as i32`,
grade all answers, re-read `total_questions` (the same unmodified row,
so it is the stored snapshot), compute the score with the `f64`
formula guarded by `total > 0`, and finalize the attempt row. -/
def submitQuizAttempt (db : QuizDb) (attempts : List QuizAttemptRow)
    (attemptId : String) (answers : List QuestionAnswer) (now : Int) :
    Except String (QuizAttemptRow × List QuestionResultRow) :=
  match attempts.find? (fun a => a.id == attemptId) with
  | none => .error "Attempt not found"
  | some att =>
    let duration := wrapI32 (now - att.startedAt)
    match gradeAnswers db attemptId answers with
    | .error e => .error e
    | .ok results =>
      let correctCount : Int := (results.countP (fun r => r.isCorrect) : Nat)
      let total := att.totalQuestions
      let score := if 0 < total then scoreF64 correctCount total else 0
      .ok ({ att with
              completedAt := some now
              durationSeconds := some duration
              correctAnswers := correctCount
              scorePercentage := score }, results)

/-- `update_question` (`local_db.rs`): stores every request field,
including the raw `question_type` string, with `content_type`
defaulting to `"TEXT"` and `multiple_answers` to `false`. -/
def updateQuestion (q : Question) (req : UpdateQuestionRequest) (now : String) : Question :=
  { q with
    questionType := req.questionType
    content := req.content
    contentType := req.contentType.getD "TEXT"
    contentLanguage := req.contentLanguage
    correctAnswer := req.correctAnswer
    multipleAnswers := req.multipleAnswers.getD false
    explanation := req.explanation
    updatedAt := now }

/-! ## Local users (`local_db.rs` / `db/users.rs`) -/

structure LocalUserRow where
  id : String
  name : String
  passwordHash : Option String
  avatar : String
  createdAt : String
  lastLoginAt : Option String
  deriving DecidableEq, Repr

/-- `verify_user_password`: a user with no stored hash accepts any
password (including none); a stored hash with no supplied password is
rejected; otherwise the stored hash is compared with the hash of the
supplied password.  The non-cryptographic `DefaultHasher` is the
abstract capability `hash`. -/
def verifyUserPassword (hash : String → String) (users : List LocalUserRow)
    (userId : String) (password : Option String) : Except String Bool :=
  match (users.find? (fun u => u.id == userId)).map (fun u => u.passwordHash) with
  | none => .error "User not found"
  | some storedHash =>
    match storedHash, password with
    | none, _ => .ok true
    | some _, none => .ok false
    | some stored, some provided => .ok (stored == hash provided)

/-- `login_user`: fail with "Invalid password" when verification
returns false; otherwise update `last_login_at`, set the active user
(modelled by the returned row) and return the user. -/
def loginUser (hash : String → String) (users : List LocalUserRow)
    (userId : String) (password : Option String) (now : String) :
    Except String LocalUserRow :=
  match verifyUserPassword hash users userId password with
  | .error e => .error e
  | .ok ok =>
    if ok then
      match users.find? (fun u => u.id == userId) with
      | none => .error "User not found"
      | some u => .ok { u with lastLoginAt := some now }
    else .error "Invalid password"

/-! ## Deck sync-status transitions (`local_db.rs`, `db.rs`)

The deck's `sync_status` column holds a raw string; these functions are
the exact status writes the source performs. -/

/-- `mark_deck_pending_if_synced` (`local_db.rs`):
`UPDATE decks SET sync_status = 'pending_sync' WHERE ... AND
sync_status = 'synced'`. -/
def markDeckPendingIfSynced (status : String) : String :=
  if status = "synced" then "pending_sync" else status

/-- The status written by `update_deck_local` (`local_db.rs`): parse the
current status, demote `Synced` to `PendingSync`, keep anything else,
store via `as_str`. -/
def updateDeckLocalStatus (status : String) : String :=
  (match SyncStatus.fromStr status with
   | .synced => SyncStatus.pendingSync
   | other => other).asStr

/-- The deck/child mutations of `local_db.rs` that touch a deck's
status. -/
inductive DeckMutation where
  | updateDeck
  | createCard
  | updateCard
  | deleteCard
  | createTag
  | deleteTag
  | addTagToCard
  | removeTagFromCard
  deriving DecidableEq, Repr

/-- The deck status resulting from each mutation: `update_deck_local`
computes the demotion inline; every card/tag mutation calls
`mark_deck_pending_if_synced`. -/
def deckStatusAfterMutation : DeckMutation → String → String
  | .updateDeck, s => updateDeckLocalStatus s
  | .createCard, s => markDeckPendingIfSynced s
  | .updateCard, s => markDeckPendingIfSynced s
  | .deleteCard, s => markDeckPendingIfSynced s
  | .createTag, s => markDeckPendingIfSynced s
  | .deleteTag, s => markDeckPendingIfSynced s
  | .addTagToCard, s => markDeckPendingIfSynced s
  | .removeTagFromCard, s => markDeckPendingIfSynced s

/-- Every operation in the source that produces a deck `sync_status`
value (directly as a written string, or as the status reported on a
constructed row). -/
inductive SyncTransition where
  | createDeckLocal
  | updateDeckLocal
  | childMutation
  | importDeckOffline
  | importDeckOnline
  | remoteFetch
  | syncReplaySuccess
  deriving DecidableEq, Repr

/-- The status string each transition stores or reports, as a function
of the current stored status: `create_deck_local` writes
`'local_only'`; `update_deck_local` writes the demoted parse;
card/tag mutations write via `mark_deck_pending_if_synced`; the
offline import path of `db.rs` writes `'pending'`; the online
deck import, remote fetches and a successful sync replay write
`'synced'`. -/
def transitionStatus : SyncTransition → String → String
  | .createDeckLocal, _ => "local_only"
  | .updateDeckLocal, s => updateDeckLocalStatus s
  | .childMutation, s => markDeckPendingIfSynced s
  | .importDeckOffline, _ => "pending"
  | .importDeckOnline, _ => "synced"
  | .remoteFetch, _ => "synced"
  | .syncReplaySuccess, _ => "synced"

end Kioku

namespace Kioku

/-! ## Sync queue and drain pass (`db.rs`, `sync_pending`) -/

/-- A `sync_queue` row (`id` is the autoincrement key, `created_at` the
stored RFC3339 text). -/
structure SyncQueueItem where
  id : Int
  entityType : String
  entityId : String
  operation : String
  payload : Option String
  createdAt : String
  deriving DecidableEq, Repr

/-- The `ORDER BY entity_type DESC, created_at ASC` comparison of the
drain query, on SQLite's TEXT (memcmp) ordering: `a` may precede `b`
iff `a.entityType` is strictly greater, or the types are equal and
`a.createdAt ≤ b.createdAt`. -/
def syncQueueLe (a b : SyncQueueItem) : Bool :=
  if a.entityType == b.entityType then strLe a.createdAt b.createdAt
  else !(strLe a.entityType b.entityType)

/-- The ordered item list produced by the drain query. -/
def drainOrder (items : List SyncQueueItem) : List SyncQueueItem :=
  List.insertionSort (fun a b => syncQueueLe a b = true) items

/-- Phase-2 state: `deckIdMap` is the `local deck id → remote id` map
built in this pass (`HashMap::insert`; the most recent insertion wins),
`syncedItems` the `(queue_id, entity_id, server_id)` triples of
successfully replayed entries, in replay order. -/
structure DrainState where
  deckIdMap : List (String × Int)
  syncedItems : List (Int × String × Int)
  deriving DecidableEq, Repr

def lookupMap (m : List (String × Int)) (k : String) : Option Int :=
  (m.find? (fun p => p.1 == k)).map (fun p => p.2)

/-- Resolution of a card's remote deck id
(`deck_id_map.get(local_id).copied().or(*existing_server_id)` over the
pre-fetched `card_deck_ids` map): a mapping made in this pass is
preferred; otherwise the persisted `server_id`; otherwise none. -/
def resolveServerDeckId (deckIdMap : List (String × Int))
    (cardDeckIds : String → Option (String × Option Int)) (entityId : String) :
    Option Int :=
  match cardDeckIds entityId with
  | none => none
  | some (localDeckId, persistedServerId) =>
    match lookupMap deckIdMap localDeckId with
    | some rid => some rid
    | none => persistedServerId

/-- One iteration of the phase-2 replay loop.  `deckResp item` / `cardResp
item serverDeckId` are the network capability's outcomes: `some rid` for
an HTTP success whose body parses to a remote id, `none` for any
network failure, non-success status or parse failure.  A deck create
records the new mapping and a synced entry; a card create resolves its
deck, is skipped (state unchanged) when resolution fails, and records a
synced entry on success; a missing payload or an unknown
type/operation pair leaves the state unchanged. -/
def drainStep (cardDeckIds : String → Option (String × Option Int))
    (deckResp : SyncQueueItem → Option Int)
    (cardResp : SyncQueueItem → Int → Option Int)
    (st : DrainState) (item : SyncQueueItem) : DrainState :=
  match item.entityType, item.operation with
  | "deck", "create" =>
    match item.payload with
    | some _ =>
      match deckResp item with
      | some remoteId =>
        { deckIdMap := (item.entityId, remoteId) :: st.deckIdMap
          syncedItems := st.syncedItems ++ [(item.id, item.entityId, remoteId)] }
      | none => st
    | none => st
  | "card", "create" =>
    match item.payload with
    | some _ =>
      match resolveServerDeckId st.deckIdMap cardDeckIds item.entityId with
      | some serverDeckId =>
        match cardResp item serverDeckId with
        | some remoteId =>
          { st with syncedItems := st.syncedItems ++ [(item.id, item.entityId, remoteId)] }
        | none => st
      | none => st
    | none => st
  | _, _ => st

/-- Phase 2 of `sync_pending`: replay the ordered queue. -/
def drainPass (cardDeckIds : String → Option (String × Option Int))
    (deckResp : SyncQueueItem → Option Int)
    (cardResp : SyncQueueItem → Int → Option Int)
    (items : List SyncQueueItem) : DrainState :=
  (drainOrder items).foldl (drainStep cardDeckIds deckResp cardResp) ⟨[], []⟩

/-- The function's return value: the count of successfully synced
entries. -/
def syncedCount (st : DrainState) : Nat := st.syncedItems.length

/-- Phase 3, queue side: exactly the queue rows whose id appears in
`syncedItems` are deleted. -/
def remainingQueue (items : List SyncQueueItem) (st : DrainState) :
    List SyncQueueItem :=
  items.filter (fun it => !(st.syncedItems.any (fun s => s.1 == it.id)))

/-- A `decks` row as `db.rs` sees it (`server_id`, textual
`sync_status`). -/
structure DeckRow where
  id : String
  serverId : Option Int
  syncStatus : String
  deriving DecidableEq, Repr

/-- A `cards` row as `db.rs` sees it. -/
structure CardRow where
  id : String
  deckId : String
  serverId : Option Int
  syncStatus : String
  deriving DecidableEq, Repr

/-- Phase 3, entity side, one synced triple: try the deck update first;
if no deck row matched, update the card row. -/
def applySyncResult (tables : List DeckRow × List CardRow)
    (s : Int × String × Int) : List DeckRow × List CardRow :=
  if tables.1.any (fun d => d.id == s.2.1) then
    (tables.1.map (fun d =>
      if d.id == s.2.1 then { d with serverId := some s.2.2, syncStatus := "synced" } else d),
     tables.2)
  else
    (tables.1,
     tables.2.map (fun c =>
      if c.id == s.2.1 then { c with serverId := some s.2.2, syncStatus := "synced" } else c))

/-- Phase 3, entity side: apply every synced triple. -/
def applySyncResults (decks : List DeckRow) (cards : List CardRow)
    (synced : List (Int × String × Int)) : List DeckRow × List CardRow :=
  synced.foldl applySyncResult (decks, cards)

end Kioku


namespace Kioku

/-! ## Concrete instances used by counterexamples and witnesses -/

/-- A question row with the given id, stored `question_type` string and
`correct_answer`; the presentation columns take fixed values. -/
def mkQuestion (qid qtype : String) (ca : Option String) : Question :=
  { id := qid, quizId := "z1", questionType := qtype, content := "",
    contentType := "TEXT", contentLanguage := none, correctAnswer := ca,
    multipleAnswers := false, explanation := none, position := 0,
    createdAt := "t0", updatedAt := "t0" }

/-- A fresh attempt row with the given start time and question-count
snapshot. -/
def mkAttempt (aid : String) (startedAt total : Int) : QuizAttemptRow :=
  { id := aid, quizId := "z1", startedAt := startedAt, completedAt := none,
    durationSeconds := none, totalQuestions := total, correctAnswers := 0,
    scorePercentage := 0 }

/-- One fill-in-blank question whose correct answer is `"A"`. -/
def scoreCexDb : QuizDb := ⟨[mkQuestion "q1" "fill_in_blank" (some "A")], []⟩

def scoreCexAttempts40 : List QuizAttemptRow := [mkAttempt "a1" 0 40]

/-- 23 correct and 17 incorrect submissions of the same question. -/
def scoreCexAnswers40 : List QuestionAnswer :=
  List.replicate 23 ⟨"q1", "A"⟩ ++ List.replicate 17 ⟨"q1", "B"⟩

def scoreCexResults40 : List QuestionResultRow :=
  List.replicate 23 ⟨"a1", "q1", "A", true⟩ ++ List.replicate 17 ⟨"a1", "q1", "B", false⟩

def scoreCexAttempts1 : List QuizAttemptRow := [mkAttempt "a1" 0 1]

/-- Two correct submissions of the same question against a snapshot of 1. -/
def scoreCexAnswers2 : List QuestionAnswer := List.replicate 2 ⟨"q1", "A"⟩

def scoreCexResults2 : List QuestionResultRow := List.replicate 2 ⟨"a1", "q1", "A", true⟩

/-- One correct submission (used to exercise the happy path). -/
def scoreWitAnswers : List QuestionAnswer := [⟨"q1", "A"⟩]

def scoreWitResults : List QuestionResultRow := [⟨"a1", "q1", "A", true⟩]

/-- An attempt whose recorded start time lies after the submission time. -/
def durCexAttempts : List QuizAttemptRow := [mkAttempt "a1" 10 1]

/-- The attempt row produced by submitting `scoreWitAnswers` against
`scoreCexAttempts1` at time `100`. -/
def scoreWitAttempt : QuizAttemptRow :=
  { id := "a1", quizId := "z1", startedAt := 0, completedAt := some 100,
    durationSeconds := some 100, totalQuestions := 1, correctAnswers := 1,
    scorePercentage := 100 }

/-- One multiple-choice question whose single correct choice is `"a"`. -/
def mcCexDb : QuizDb :=
  ⟨[mkQuestion "q1" "multiple_choice" none],
   [{ id := "a", questionId := "q1", text := "", isCorrect := true, position := 0 }]⟩

/-- The multiple-choice scenario of the spec: correct set `{c1, c3}`. -/
def mcWitDb : QuizDb :=
  ⟨[mkQuestion "q1" "multiple_choice" none],
   [{ id := "c1", questionId := "q1", text := "", isCorrect := true, position := 0 },
    { id := "c2", questionId := "q1", text := "", isCorrect := false, position := 1 },
    { id := "c3", questionId := "q1", text := "", isCorrect := true, position := 2 }]⟩

/-- The fill-in-blank scenario of the spec: correct answer `"Paris"`. -/
def fibWitDb : QuizDb := ⟨[mkQuestion "q1" "fill_in_blank" (some "Paris")], []⟩

/-- A question stored with the unsupported type string `"true_false"`. -/
def otherTypeDb : QuizDb := ⟨[mkQuestion "q1" "true_false" (some "yes")], []⟩

/-- Users: `u1` has no stored hash, `u2` stores the hash of `"pw"`. -/
def userWitRows (hash : String → String) : List LocalUserRow :=
  [{ id := "u1", name := "n1", passwordHash := none, avatar := "avatar-smile",
     createdAt := "t0", lastLoginAt := none },
   { id := "u2", name := "n2", passwordHash := some (hash "pw"), avatar := "avatar-smile",
     createdAt := "t0", lastLoginAt := none }]

/-- A four-entry queue: two decks and two cards, enqueued interleaved. -/
def queueWitItems : List SyncQueueItem :=
  [{ id := 1, entityType := "card", entityId := "c1", operation := "create",
     payload := some "p", createdAt := "2024-01-01T00:00:01+00:00" },
   { id := 2, entityType := "deck", entityId := "d1", operation := "create",
     payload := some "p", createdAt := "2024-01-01T00:00:02+00:00" },
   { id := 3, entityType := "card", entityId := "c2", operation := "create",
     payload := some "p", createdAt := "2024-01-01T00:00:03+00:00" },
   { id := 4, entityType := "deck", entityId := "d2", operation := "create",
     payload := some "p", createdAt := "2024-01-01T00:00:04+00:00" }]

/-- Pre-fetched deck info for the drain witness: card `c1` belongs to
local deck `d1` whose stale persisted server id is `3`; card `c2` has no
pre-fetched row. -/
def syncWitCardInfo : String → Option (String × Option Int) :=
  fun eid => if eid = "c1" then some ("d1", some 3) else none

/-- A card queue entry whose deck cannot be resolved. -/
def syncWitOrphan : SyncQueueItem :=
  { id := 9, entityType := "card", entityId := "c2", operation := "create",
    payload := some "p", createdAt := "2024-01-01T00:00:05+00:00" }

end Kioku

namespace Kioku

/-! ## Properties of the binary64 rounding model -/

theorem two_zpow_pos (e : ℤ) : (0 : ℚ) < 2 ^ e := zpow_pos (by norm_num) e

theorem intLog2_eq_of {x : ℚ} {e : ℤ} (h1 : (2 : ℚ) ^ e ≤ x) (h2 : x < (2 : ℚ) ^ (e + 1)) :
    Int.log 2 x = e := by
  have hx : 0 < x := lt_of_lt_of_le (two_zpow_pos e) h1
  have hb : 1 < (2 : ℕ) := by norm_num
  have hcast : ((2 : ℕ) : ℚ) = (2 : ℚ) := by norm_num
  refine le_antisymm ?_ ?_
  · have h2' : x < ((2 : ℕ) : ℚ) ^ (e + 1) := by rw [hcast]; exact h2
    have := (Int.lt_zpow_iff_log_lt hb hx).mp h2'
    omega
  · have h1' : ((2 : ℕ) : ℚ) ^ e ≤ x := by rw [hcast]; exact h1
    exact (Int.zpow_le_iff_le_log hb hx).mp h1'

theorem roundTiesEven_close (y : ℚ) : |(roundTiesEven y : ℚ) - y| ≤ 1 / 2 := by
  unfold roundTiesEven
  have h0 := Int.floor_le y
  have h1 := Int.lt_floor_add_one y
  split_ifs with ha hb hc <;> rw [abs_le] <;> constructor <;> push_cast <;> linarith

theorem roundTiesEven_nonneg {y : ℚ} (hy : 0 ≤ y) : 0 ≤ roundTiesEven y := by
  unfold roundTiesEven
  have h0 : 0 ≤ ⌊y⌋ := Int.floor_nonneg.mpr hy
  split_ifs <;> omega

theorem flQ_of_nonpos {x : ℚ} (h : x ≤ 0) : flQ x = 0 := if_pos h

theorem flQ_nonneg (x : ℚ) : 0 ≤ flQ x := by
  rw [flQ]
  split_ifs with h
  · exact le_refl 0
  · push_neg at h
    have hy : (0 : ℚ) ≤ x * 2 ^ ((52 : ℤ) - Int.log 2 x) :=
      mul_nonneg h.le (two_zpow_pos _).le
    exact mul_nonneg (by exact_mod_cast roundTiesEven_nonneg hy) (two_zpow_pos _).le

theorem flQ_close {x : ℚ} (hx : 0 < x) : |flQ x - x| ≤ x * 2 ^ (-53 : ℤ) := by
  set e := Int.log 2 x with he
  have hlow : (2 : ℚ) ^ e ≤ x := by
    have := Int.zpow_log_le_self (b := 2) (by norm_num) hx
    rwa [(by norm_num : ((2 : ℕ) : ℚ) = (2 : ℚ))] at this
  have h2 : ((2 : ℚ)) ≠ 0 := by norm_num
  have hclose := roundTiesEven_close (x * 2 ^ ((52 : ℤ) - e))
  rw [flQ, if_neg (not_le.mpr hx)]
  have hx2 : (x * 2 ^ ((52 : ℤ) - e)) * 2 ^ (e - 52) = x := by
    rw [mul_assoc, ← zpow_add₀ h2]
    norm_num
  calc |(flMant x : ℚ) * 2 ^ (e - 52) - x|
      = |(flMant x : ℚ) - x * 2 ^ ((52 : ℤ) - e)| * 2 ^ (e - 52) := by
        rw [show (flMant x : ℚ) * 2 ^ (e - 52) - x =
              ((flMant x : ℚ) - x * 2 ^ ((52 : ℤ) - e)) * 2 ^ (e - 52) from by
            rw [sub_mul, hx2]]
        rw [abs_mul, abs_of_pos (two_zpow_pos _)]
    _ ≤ (1 / 2) * 2 ^ (e - 52) := by
        refine mul_le_mul_of_nonneg_right ?_ (two_zpow_pos _).le
        rw [flMant]
        exact hclose
    _ = 2 ^ (e - 53) := by
        rw [(by norm_num : (1 / 2 : ℚ) = 2 ^ (-1 : ℤ)), ← zpow_add₀ h2]
        congr 1
        ring
    _ = 2 ^ e * 2 ^ (-53 : ℤ) := by
        rw [← zpow_add₀ h2]
        congr 1
    _ ≤ x * 2 ^ (-53 : ℤ) := mul_le_mul_of_nonneg_right hlow (two_zpow_pos _).le

theorem flQ_le_mul {x : ℚ} (hx : 0 < x) : flQ x ≤ x * (1 + 2 ^ (-53 : ℤ)) := by
  have h := flQ_close hx
  rw [abs_le] at h
  calc flQ x ≤ x + x * 2 ^ (-53 : ℤ) := by linarith [h.2]
    _ = x * (1 + 2 ^ (-53 : ℤ)) := by ring

theorem flQ_ge_mul {x : ℚ} (hx : 0 < x) : x * (1 - 2 ^ (-53 : ℤ)) ≤ flQ x := by
  have h := flQ_close hx
  rw [abs_le] at h
  calc x * (1 - 2 ^ (-53 : ℤ)) = x - x * 2 ^ (-53 : ℤ) := by ring
    _ ≤ flQ x := by linarith [h.1]

theorem flQ_pos {x : ℚ} (hx : 0 < x) : 0 < flQ x := by
  have hge := flQ_ge_mul hx
  have hu : (2 : ℚ) ^ (-53 : ℤ) < 1 := by norm_num
  nlinarith

theorem flQ_eq_of_floor {x : ℚ} {e m : ℤ} (h1 : (2 : ℚ) ^ e ≤ x) (h2 : x < (2 : ℚ) ^ (e + 1))
    (hm : (m : ℚ) ≤ x * 2 ^ ((52 : ℤ) - e)) (hr : x * 2 ^ ((52 : ℤ) - e) < (m : ℚ) + 1 / 2) :
    flQ x = (m : ℚ) * 2 ^ (e - 52) := by
  have hx : 0 < x := lt_of_lt_of_le (two_zpow_pos e) h1
  have hlog := intLog2_eq_of h1 h2
  have hfloor : ⌊x * 2 ^ ((52 : ℤ) - e)⌋ = m :=
    Int.floor_eq_iff.mpr ⟨hm, by linarith⟩
  rw [flQ, if_neg (not_le.mpr hx), flMant, hlog, roundTiesEven, hfloor]
  rw [if_pos (by linarith)]

theorem clampI32_eq {z : Int} (h1 : -(2 ^ 31) ≤ z) (h2 : z ≤ 2 ^ 31 - 1) :
    clampI32 z = z := by
  unfold clampI32
  rw [if_neg (by omega), if_neg (by omega)]

/-- `23 / 40` rounds down to the binary64 value just below `0.575`. -/
theorem flQ_23_40 : flQ (23 / 40 : ℚ) = (5179139571476070 : ℚ) * 2 ^ (-53 : ℤ) := by
  have h := flQ_eq_of_floor (x := 23 / 40) (e := -1) (m := 5179139571476070)
    (by norm_num) (by norm_num) (by norm_num) (by norm_num)
  rw [h]
  norm_num

/-- ... and multiplying that value by `100` rounds to a binary64 value
just below `57.5`, so the Rust score for 23 of 40 is `57`, not `58`. -/
theorem scoreF64_23_40 : scoreF64 23 40 = 57 := by
  unfold scoreF64
  rw [show ((23 : Int) : ℚ) / ((40 : Int) : ℚ) = (23 / 40 : ℚ) by norm_num]
  rw [flQ_23_40]
  rw [show flQ ((5179139571476070 : ℚ) * 2 ^ (-53 : ℤ) * 100) =
        (8092405580431359 : ℚ) * 2 ^ (-47 : ℤ) from ?_]
  · rw [show ⌊(8092405580431359 : ℚ) * 2 ^ (-47 : ℤ) + 1 / 2⌋ = 57 from
      Int.floor_eq_iff.mpr ⟨by norm_num, by norm_num⟩]
    exact clampI32_eq (by norm_num) (by norm_num)
  · have h := flQ_eq_of_floor (x := (5179139571476070 : ℚ) * 2 ^ (-53 : ℤ) * 100)
      (e := 5) (m := 8092405580431359) (by norm_num) (by norm_num) (by norm_num) (by norm_num)
    rw [h]
    norm_num

theorem specRound_23_40 : specRound 23 40 = 58 := by
  unfold specRound
  rw [show ((23 : Int) : ℚ) * 100 / ((40 : Int) : ℚ) + 1 / 2 = (58 : ℚ) by norm_num]
  exact_mod_cast Int.floor_intCast (α := ℚ) 58

/-- 2 correct answers against a snapshotted total of 1 score as `200`. -/
theorem scoreF64_2_1 : scoreF64 2 1 = 200 := by
  unfold scoreF64
  rw [show ((2 : Int) : ℚ) / ((1 : Int) : ℚ) = (2 : ℚ) by norm_num]
  rw [show flQ (2 : ℚ) = (4503599627370496 : ℚ) * 2 ^ (-51 : ℤ) from ?_]
  · rw [show flQ ((4503599627370496 : ℚ) * 2 ^ (-51 : ℤ) * 100) =
          (7036874417766400 : ℚ) * 2 ^ (-45 : ℤ) from ?_]
    · rw [show ⌊(7036874417766400 : ℚ) * 2 ^ (-45 : ℤ) + 1 / 2⌋ = 200 from
        Int.floor_eq_iff.mpr ⟨by norm_num, by norm_num⟩]
      exact clampI32_eq (by norm_num) (by norm_num)
    · have h := flQ_eq_of_floor (x := (4503599627370496 : ℚ) * 2 ^ (-51 : ℤ) * 100)
        (e := 7) (m := 7036874417766400) (by norm_num) (by norm_num) (by norm_num) (by norm_num)
      rw [h]
      norm_num
  · have h := flQ_eq_of_floor (x := (2 : ℚ)) (e := 1) (m := 4503599627370496)
      (by norm_num) (by norm_num) (by norm_num) (by norm_num)
    rw [h]
    norm_num

/-- 1 of 1 scores as `100`. -/
theorem scoreF64_1_1 : scoreF64 1 1 = 100 := by
  unfold scoreF64
  rw [show ((1 : Int) : ℚ) / ((1 : Int) : ℚ) = (1 : ℚ) by norm_num]
  rw [show flQ (1 : ℚ) = (4503599627370496 : ℚ) * 2 ^ (-52 : ℤ) from ?_]
  · rw [show flQ ((4503599627370496 : ℚ) * 2 ^ (-52 : ℤ) * 100) =
          (7036874417766400 : ℚ) * 2 ^ (-46 : ℤ) from ?_]
    · rw [show ⌊(7036874417766400 : ℚ) * 2 ^ (-46 : ℤ) + 1 / 2⌋ = 100 from
        Int.floor_eq_iff.mpr ⟨by norm_num, by norm_num⟩]
      exact clampI32_eq (by norm_num) (by norm_num)
    · have h := flQ_eq_of_floor (x := (4503599627370496 : ℚ) * 2 ^ (-52 : ℤ) * 100)
        (e := 6) (m := 7036874417766400) (by norm_num) (by norm_num) (by norm_num) (by norm_num)
      rw [h]
      norm_num
  · have h := flQ_eq_of_floor (x := (1 : ℚ)) (e := 0) (m := 4503599627370496)
      (by norm_num) (by norm_num) (by norm_num) (by norm_num)
    rw [h]
    norm_num

theorem scoreF64_nonneg (c t : Int) : 0 ≤ scoreF64 c t := by
  unfold scoreF64
  have hz := flQ_nonneg (flQ ((c : ℚ) / (t : ℚ)) * 100)
  have hfl : (0 : ℤ) ≤ ⌊flQ (flQ ((c : ℚ) / (t : ℚ)) * 100) + 1 / 2⌋ :=
    Int.le_floor.mpr (by push_cast; linarith)
  unfold clampI32
  split_ifs <;> omega

theorem scoreF64_le_100 {c t : Int} (hc : 0 ≤ c) (hct : c ≤ t) (ht : 0 < t) :
    scoreF64 c t ≤ 100 := by
  rcases eq_or_lt_of_le hc with hc0 | hc1
  · -- no correct answers: every stage is zero
    have hx0 : ((c : ℚ) / (t : ℚ)) = 0 := by rw [← hc0]; norm_num
    unfold scoreF64
    rw [hx0, flQ_of_nonpos le_rfl, zero_mul, flQ_of_nonpos le_rfl]
    rw [show ⌊(0 : ℚ) + 1 / 2⌋ = 0 from Int.floor_eq_iff.mpr ⟨by norm_num, by norm_num⟩]
    rw [clampI32_eq (by norm_num) (by norm_num)]
    norm_num
  · have htq : (0 : ℚ) < (t : ℚ) := by exact_mod_cast ht
    have hxpos : 0 < (c : ℚ) / (t : ℚ) := div_pos (by exact_mod_cast hc1) htq
    have hx1 : (c : ℚ) / (t : ℚ) ≤ 1 := (div_le_one htq).mpr (by exact_mod_cast hct)
    have hu : (0 : ℚ) < 2 ^ (-53 : ℤ) := two_zpow_pos _
    have hu1 : (2 : ℚ) ^ (-53 : ℤ) = 1 / 9007199254740992 := by norm_num
    have hw := flQ_le_mul hxpos
    have hwpos := flQ_pos hxpos
    have harg : (0 : ℚ) < flQ ((c : ℚ) / (t : ℚ)) * 100 := by positivity
    have hz := flQ_le_mul harg
    have hzbound : flQ (flQ ((c : ℚ) / (t : ℚ)) * 100) < 201 / 2 := by
      have h1 : flQ ((c : ℚ) / (t : ℚ)) ≤ 1 + 2 ^ (-53 : ℤ) := by nlinarith
      have h2 : flQ (flQ ((c : ℚ) / (t : ℚ)) * 100) ≤
          (1 + 2 ^ (-53 : ℤ)) * 100 * (1 + 2 ^ (-53 : ℤ)) := by nlinarith
      rw [hu1] at h2
      linarith [h2]
    have hfloor : ⌊flQ (flQ ((c : ℚ) / (t : ℚ)) * 100) + 1 / 2⌋ < 101 :=
      Int.floor_lt.mpr (by push_cast; linarith)
    have hge : (0 : ℤ) ≤ ⌊flQ (flQ ((c : ℚ) / (t : ℚ)) * 100) + 1 / 2⌋ :=
      Int.le_floor.mpr (by push_cast; linarith [flQ_nonneg (flQ ((c : ℚ) / (t : ℚ)) * 100)])
    unfold scoreF64
    rw [clampI32_eq (by omega) (by norm_num; omega)]
    omega

/-! ## Properties of the byte-lexicographic string order -/

theorem charListLe_refl (a : List Char) : charListLe a a = true := by
  induction a with
  | nil => rfl
  | cons x xs ih => simp only [charListLe, lt_irrefl, if_false, if_neg]; exact ih

theorem charListLe_total (a b : List Char) :
    charListLe a b = true ∨ charListLe b a = true := by
  induction a generalizing b with
  | nil => left; rfl
  | cons x xs ih =>
    cases b with
    | nil => right; rfl
    | cons y ys =>
      by_cases h1 : x < y
      · left; simp only [charListLe, if_pos h1]
      · by_cases h2 : y < x
        · right; simp only [charListLe, if_pos h2]
        · simp only [charListLe, if_neg h1, if_neg h2]
          exact ih ys

theorem charListLe_trans (a : List Char) :
    ∀ b c, charListLe a b = true → charListLe b c = true → charListLe a c = true := by
  induction a with
  | nil => intro b c _ _; rfl
  | cons x xs ih =>
    intro b c hab hbc
    cases b with
    | nil => simp [charListLe] at hab
    | cons y ys =>
      cases c with
      | nil => simp [charListLe] at hbc
      | cons z zs =>
        simp only [charListLe] at hab hbc ⊢
        by_cases hxy : x < y
        · by_cases hyz : y < z
          · rw [if_pos (lt_trans hxy hyz)]
          · by_cases hzy : z < y
            · rw [if_neg hyz, if_pos hzy] at hbc
              exact absurd hbc (by simp)
            · have hyezz : y = z := le_antisymm (not_lt.mp hzy) (not_lt.mp hyz)
              subst hyezz
              rw [if_pos hxy]
        · by_cases hyx : y < x
          · rw [if_neg hxy, if_pos hyx] at hab
            exact absurd hab (by simp)
          · have hxey : x = y := le_antisymm (not_lt.mp hyx) (not_lt.mp hxy)
            subst hxey
            rw [if_neg hxy, if_neg hxy] at hab
            by_cases hxz : x < z
            · rw [if_pos hxz]
            · by_cases hzx : z < x
              · rw [if_neg hxz, if_pos hzx] at hbc
                exact absurd hbc (by simp)
              · rw [if_neg hxz, if_neg hzx] at hbc ⊢
                exact ih ys zs hab hbc

theorem charListLe_antisymm (a : List Char) :
    ∀ b, charListLe a b = true → charListLe b a = true → a = b := by
  induction a with
  | nil =>
    intro b hab _
    cases b with
    | nil => rfl
    | cons y ys => simp [charListLe] at *
  | cons x xs ih =>
    intro b hab hba
    cases b with
    | nil => simp [charListLe] at hab
    | cons y ys =>
      simp only [charListLe] at hab hba
      by_cases hxy : x < y
      · rw [if_neg (asymm hxy), if_pos hxy] at hba
        exact absurd hba (by simp)
      · by_cases hyx : y < x
        · rw [if_neg hxy, if_pos hyx] at hab
          exact absurd hab (by simp)
        · have hxey : x = y := le_antisymm (not_lt.mp hyx) (not_lt.mp hxy)
          subst hxey
          rw [if_neg hxy, if_neg hxy] at hab
          rw [congrArg (x :: ·) (ih ys hab (by rwa [if_neg hxy, if_neg hxy] at hba))]

instance : IsTotal String (fun a b => strLe a b = true) :=
  ⟨fun a b => charListLe_total a.data b.data⟩

instance : IsTrans String (fun a b => strLe a b = true) :=
  ⟨fun a b c => charListLe_trans a.data b.data c.data⟩

instance : IsAntisymm String (fun a b => strLe a b = true) :=
  ⟨fun a b h1 h2 => by
    cases a with
    | mk la =>
      cases b with
      | mk lb => exact congrArg String.mk (charListLe_antisymm la lb h1 h2)⟩

theorem sortStrings_perm (l : List String) : (sortStrings l).Perm l :=
  List.perm_insertionSort _ l

/-- Two lists of strings have the same `Vec::sort` image exactly when
they are permutations of each other. -/
theorem sortStrings_eq_iff_perm (l1 l2 : List String) :
    sortStrings l1 = sortStrings l2 ↔ l1.Perm l2 := by
  constructor
  · intro h
    have h2 : (sortStrings l1).Perm l2 := by rw [h]; exact sortStrings_perm l2
    exact (sortStrings_perm l1).symm.trans h2
  · intro h
    exact List.eq_of_perm_of_sorted
      ((sortStrings_perm l1).trans (h.trans (sortStrings_perm l2).symm))
      (List.sorted_insertionSort _ l1) (List.sorted_insertionSort _ l2)

theorem strLe_total (a b : String) : strLe a b = true ∨ strLe b a = true :=
  charListLe_total a.data b.data

theorem strLe_trans {a b c : String} (h1 : strLe a b = true) (h2 : strLe b c = true) :
    strLe a c = true :=
  charListLe_trans a.data b.data c.data h1 h2

theorem strLe_antisymm {a b : String} (h1 : strLe a b = true) (h2 : strLe b a = true) :
    a = b := by
  cases a with
  | mk la =>
    cases b with
    | mk lb => exact congrArg String.mk (charListLe_antisymm la lb h1 h2)

theorem syncQueueLe_total (a b : SyncQueueItem) :
    syncQueueLe a b = true ∨ syncQueueLe b a = true := by
  unfold syncQueueLe
  by_cases h : a.entityType = b.entityType
  · rw [if_pos (by simp [h]), if_pos (by simp [h])]
    exact strLe_total _ _
  · rw [if_neg (by simp [h]), if_neg (by simp [Ne.symm h])]
    by_cases hab : strLe a.entityType b.entityType = true
    · by_cases hba : strLe b.entityType a.entityType = true
      · exact absurd (strLe_antisymm hab hba) h
      · right; simp [hba]
    · left; simp [hab]

theorem syncQueueLe_trans (a b c : SyncQueueItem) (hab : syncQueueLe a b = true)
    (hbc : syncQueueLe b c = true) : syncQueueLe a c = true := by
  unfold syncQueueLe at *
  by_cases h1 : a.entityType = b.entityType <;> by_cases h2 : b.entityType = c.entityType
  · rw [if_pos (by simp [h1])] at hab
    rw [if_pos (by simp [h2])] at hbc
    rw [if_pos (by simp [h1.trans h2])]
    exact strLe_trans hab hbc
  · rw [if_pos (by simp [h1])] at hab
    rw [if_neg (by simp [h2])] at hbc
    have hac : a.entityType ≠ c.entityType := by rw [h1]; exact h2
    rw [if_neg (by simp [hac])]
    rw [h1]
    exact hbc
  · rw [if_neg (by simp [h1])] at hab
    have hac : a.entityType ≠ c.entityType := by rw [← h2]; exact h1
    rw [if_neg (by simp [hac])]
    rw [← h2]
    exact hab
  · rw [if_neg (by simp [h1])] at hab
    rw [if_neg (by simp [h2])] at hbc
    simp only [Bool.not_eq_true'] at hab hbc
    have hba : strLe b.entityType a.entityType = true :=
      (strLe_total a.entityType b.entityType).resolve_left (by simp [hab])
    have hcb : strLe c.entityType b.entityType = true :=
      (strLe_total b.entityType c.entityType).resolve_left (by simp [hbc])
    have hca : strLe c.entityType a.entityType = true := strLe_trans hcb hba
    have hac : a.entityType ≠ c.entityType := by
      intro he
      rw [← he] at hcb
      exact absurd hcb (by simp [hab])
    rw [if_neg (by simp [hac])]
    simp only [Bool.not_eq_true']
    by_cases hax : strLe a.entityType c.entityType = true
    · exact absurd (strLe_antisymm hax hca) hac
    · simpa using hax

instance : IsTotal SyncQueueItem (fun a b => syncQueueLe a b = true) :=
  ⟨syncQueueLe_total⟩

instance : IsTrans SyncQueueItem (fun a b => syncQueueLe a b = true) :=
  ⟨syncQueueLe_trans⟩

theorem drainOrder_perm (items : List SyncQueueItem) : (drainOrder items).Perm items :=
  List.perm_insertionSort _ items

theorem drainOrder_sorted (items : List SyncQueueItem) :
    (drainOrder items).Sorted (fun a b => syncQueueLe a b = true) :=
  List.sorted_insertionSort _ items

/-! ## Unfolding lemmas for grading and submission -/

theorem gradeAnswer_fill {db : QuizDb} {qid : String} (ans : String) {q : Question}
    (hfind : db.questions.find? (fun q' => q'.id == qid) = some q)
    (hf : q.questionType = "fill_in_blank") :
    gradeAnswer db qid ans = .ok (q.correctAnswer == some ans) := by
  simp [gradeAnswer, hfind, hf]

theorem gradeAnswer_mc {db : QuizDb} {qid : String} (ans : String) {q : Question}
    (hfind : db.questions.find? (fun q' => q'.id == qid) = some q)
    (hmc : q.questionType = "multiple_choice") :
    gradeAnswer db qid ans =
      .ok (sortStrings (userIds ans) == sortStrings (correctIds db qid)) := by
  simp [gradeAnswer, hfind, hmc]

theorem gradeAnswer_other {db : QuizDb} {qid ans : String} {q : Question}
    (hfind : db.questions.find? (fun q' => q'.id == qid) = some q)
    (h1 : q.questionType ≠ "fill_in_blank") (h2 : q.questionType ≠ "multiple_choice") :
    gradeAnswer db qid ans = .ok false := by
  simp only [gradeAnswer, hfind]

theorem submitQuizAttempt_eq {db : QuizDb} {attempts : List QuizAttemptRow}
    {attemptId : String} {answers : List QuestionAnswer} {now : Int}
    {att : QuizAttemptRow} {results : List QuestionResultRow}
    (hfind : attempts.find? (fun a => a.id == attemptId) = some att)
    (hgrade : gradeAnswers db attemptId answers = .ok results) :
    submitQuizAttempt db attempts attemptId answers now =
      .ok ({ att with
              completedAt := some now
              durationSeconds := some (wrapI32 (now - att.startedAt))
              correctAnswers := (results.countP (fun r => r.isCorrect) : Nat)
              scorePercentage :=
                if 0 < att.totalQuestions
                then scoreF64 ((results.countP (fun r => r.isCorrect) : Nat)) att.totalQuestions
                else 0 }, results) := by
  unfold submitQuizAttempt
  rw [hfind, hgrade]

/-! ## Unfolding lemmas for the drain pass -/

theorem resolveServerDeckId_mapped {m : List (String × Int)}
    {cardDeckIds : String → Option (String × Option Int)} {eid localId : String}
    {pers : Option Int} {rid : Int}
    (hinfo : cardDeckIds eid = some (localId, pers))
    (hmap : lookupMap m localId = some rid) :
    resolveServerDeckId m cardDeckIds eid = some rid := by
  simp [resolveServerDeckId, hinfo, hmap]

theorem resolveServerDeckId_persisted {m : List (String × Int)}
    {cardDeckIds : String → Option (String × Option Int)} {eid localId : String}
    {pers : Option Int}
    (hinfo : cardDeckIds eid = some (localId, pers))
    (hmap : lookupMap m localId = none) :
    resolveServerDeckId m cardDeckIds eid = pers := by
  simp [resolveServerDeckId, hinfo, hmap]

theorem resolveServerDeckId_unknown {m : List (String × Int)}
    {cardDeckIds : String → Option (String × Option Int)} {eid : String}
    (hinfo : cardDeckIds eid = none) :
    resolveServerDeckId m cardDeckIds eid = none := by
  simp [resolveServerDeckId, hinfo]

theorem drainStep_card_skip {cardDeckIds : String → Option (String × Option Int)}
    {deckResp : SyncQueueItem → Option Int} {cardResp : SyncQueueItem → Int → Option Int}
    {st : DrainState} {item : SyncQueueItem}
    (het : item.entityType = "card") (hop : item.operation = "create")
    (hres : resolveServerDeckId st.deckIdMap cardDeckIds item.entityId = none) :
    drainStep cardDeckIds deckResp cardResp st item = st := by
  cases hp : item.payload <;> simp [drainStep, het, hop, hres, hp]

theorem mem_remainingQueue {items : List SyncQueueItem} {st : DrainState}
    {it : SyncQueueItem} (hmem : it ∈ items)
    (hnot : ∀ s ∈ st.syncedItems, s.1 ≠ it.id) :
    it ∈ remainingQueue items st := by
  unfold remainingQueue
  refine List.mem_filter.mpr ⟨hmem, ?_⟩
  simp only [Bool.not_eq_true', List.any_eq_false]
  intro s hs
  simpa using hnot s hs

theorem applySyncResult_deck_untouched {tables : List DeckRow × List CardRow}
    {s : Int × String × Int} {d : DeckRow}
    (hd : d ∈ tables.1) (hne : s.2.1 ≠ d.id) :
    d ∈ (applySyncResult tables s).1 := by
  unfold applySyncResult
  split_ifs with h
  · exact List.mem_map.mpr ⟨d, hd, by simp [Ne.symm hne]⟩
  · exact hd

theorem applySyncResult_card_untouched {tables : List DeckRow × List CardRow}
    {s : Int × String × Int} {c : CardRow}
    (hc : c ∈ tables.2) (hne : s.2.1 ≠ c.id) :
    c ∈ (applySyncResult tables s).2 := by
  unfold applySyncResult
  split_ifs with h
  · exact hc
  · exact List.mem_map.mpr ⟨c, hc, by simp [Ne.symm hne]⟩

theorem applySyncResults_deck_untouched {decks : List DeckRow} {cards : List CardRow}
    {synced : List (Int × String × Int)} {d : DeckRow}
    (hd : d ∈ decks) (hnot : ∀ s ∈ synced, s.2.1 ≠ d.id) :
    d ∈ (applySyncResults decks cards synced).1 := by
  unfold applySyncResults
  induction synced generalizing decks cards with
  | nil => exact hd
  | cons s rest ih =>
    simp only [List.foldl_cons]
    have hstep : d ∈ (applySyncResult (decks, cards) s).1 :=
      applySyncResult_deck_untouched hd (hnot s (List.mem_cons_self s rest))
    exact ih hstep (fun s' hs' => hnot s' (List.mem_cons_of_mem s hs'))

theorem applySyncResults_card_untouched {decks : List DeckRow} {cards : List CardRow}
    {synced : List (Int × String × Int)} {c : CardRow}
    (hc : c ∈ cards) (hnot : ∀ s ∈ synced, s.2.1 ≠ c.id) :
    c ∈ (applySyncResults decks cards synced).2 := by
  unfold applySyncResults
  induction synced generalizing decks cards with
  | nil => exact hc
  | cons s rest ih =>
    simp only [List.foldl_cons]
    have hstep : c ∈ (applySyncResult (decks, cards) s).2 :=
      applySyncResult_card_untouched hc (hnot s (List.mem_cons_self s rest))
    exact ih hstep (fun s' hs' => hnot s' (List.mem_cons_of_mem s hs'))

theorem markDeckPendingIfSynced_spec (s : String) :
    (s = "synced" → markDeckPendingIfSynced s = "pending_sync")
    ∧ ((s = "local_only" ∨ s = "pending_sync") → markDeckPendingIfSynced s = s)
    ∧ markDeckPendingIfSynced (markDeckPendingIfSynced s) = markDeckPendingIfSynced s := by
  by_cases h : s = "synced"
  · subst h
    exact ⟨fun _ => rfl, by simp, by decide⟩
  · refine ⟨fun hs => absurd hs h, fun _ => if_neg h, ?_⟩
    simp only [markDeckPendingIfSynced, if_neg h]

theorem updateDeckLocalStatus_spec (s : String) :
    (s = "synced" → updateDeckLocalStatus s = "pending_sync")
    ∧ ((s = "local_only" ∨ s = "pending_sync") → updateDeckLocalStatus s = s)
    ∧ updateDeckLocalStatus (updateDeckLocalStatus s) = updateDeckLocalStatus s := by
  refine ⟨fun hs => by subst hs; decide, fun hs => ?_, ?_⟩
  · rcases hs with hs | hs <;> subst hs <;> decide
  · cases h : SyncStatus.fromStr s <;> simp only [updateDeckLocalStatus, h] <;> decide

end Kioku

/-- C3: every mutation of a deck or of one of its child cards or tags
(deck edit, card create/edit/delete, tag create/delete, card-tag
add/remove) demotes a `synced` deck to `pending_sync`, leaves a
`local_only` or `pending_sync` deck unchanged, and is idempotent on the
resulting status. -/
theorem deck_mutation_demotes_synced_idempotently
    (m : Kioku.DeckMutation) (s : String) :
    (s = "synced" → Kioku.deckStatusAfterMutation m s = "pending_sync")
    ∧ ((s = "local_only" ∨ s = "pending_sync") → Kioku.deckStatusAfterMutation m s = s)
    ∧ Kioku.deckStatusAfterMutation m (Kioku.deckStatusAfterMutation m s) =
        Kioku.deckStatusAfterMutation m s := by
  cases m <;>
    first
      | exact Kioku.updateDeckLocalStatus_spec s
      | exact Kioku.markDeckPendingIfSynced_spec s

/-- C3 witness: creating a card under a `synced` deck demotes it to
`pending_sync`; doing it again leaves it `pending_sync`. -/
theorem deck_mutation_demotes_synced_idempotently_witness :
    Kioku.deckStatusAfterMutation .createCard "synced" = "pending_sync"
    ∧ Kioku.deckStatusAfterMutation .createCard "pending_sync" = "pending_sync" :=
  ⟨(deck_mutation_demotes_synced_idempotently .createCard "synced").1 rfl,
   (deck_mutation_demotes_synced_idempotently .createCard "pending_sync").2.1 (Or.inr rfl)⟩

/-- C8: starting from any stored status that is not `conflict`, every
status-producing operation of the source (local create, local deck
update, child mutation, offline/online import, remote fetch, successful
sync replay) yields a status that parses to `LocalOnly`, `Synced` or
`PendingSync` — the `Conflict` state is never produced. -/
theorem no_transition_produces_conflict
    (t : Kioku.SyncTransition) (s : String)
    (h : Kioku.SyncStatus.fromStr s ≠ .conflict) :
    (Kioku.SyncStatus.fromStr (Kioku.transitionStatus t s) = .localOnly
      ∨ Kioku.SyncStatus.fromStr (Kioku.transitionStatus t s) = .synced
      ∨ Kioku.SyncStatus.fromStr (Kioku.transitionStatus t s) = .pendingSync)
    ∧ Kioku.SyncStatus.fromStr (Kioku.transitionStatus t s) ≠ .conflict := by
  have key : Kioku.SyncStatus.fromStr (Kioku.transitionStatus t s) = .localOnly
      ∨ Kioku.SyncStatus.fromStr (Kioku.transitionStatus t s) = .synced
      ∨ Kioku.SyncStatus.fromStr (Kioku.transitionStatus t s) = .pendingSync := by
    cases t
    · left; simp only [Kioku.transitionStatus]; decide
    · cases hs : Kioku.SyncStatus.fromStr s
      · left
        simp only [Kioku.transitionStatus, Kioku.updateDeckLocalStatus, hs]
        decide
      · right; right
        simp only [Kioku.transitionStatus, Kioku.updateDeckLocalStatus, hs]
        decide
      · right; right
        simp only [Kioku.transitionStatus, Kioku.updateDeckLocalStatus, hs]
        decide
      · exact absurd hs h
    · by_cases hs : s = "synced"
      · right; right
        simp only [Kioku.transitionStatus, Kioku.markDeckPendingIfSynced, hs]
        decide
      · have heq : Kioku.transitionStatus .childMutation s = s :=
          if_neg hs
        rw [heq]
        cases hf : Kioku.SyncStatus.fromStr s
        · left; rfl
        · right; left; rfl
        · right; right; rfl
        · exact absurd hf h
    · left; simp only [Kioku.transitionStatus]; decide
    · right; left; simp only [Kioku.transitionStatus]; decide
    · right; left; simp only [Kioku.transitionStatus]; decide
    · right; left; simp only [Kioku.transitionStatus]; decide
  refine ⟨key, ?_⟩
  rcases key with hk | hk | hk <;> rw [hk] <;> intro hc <;> exact absurd hc (by simp)

/-- C8 witness: a child mutation on a `synced` deck produces
`pending_sync`, not `conflict`. -/
theorem no_transition_produces_conflict_witness :
    (Kioku.SyncStatus.fromStr (Kioku.transitionStatus .childMutation "synced") = .localOnly
      ∨ Kioku.SyncStatus.fromStr (Kioku.transitionStatus .childMutation "synced") = .synced
      ∨ Kioku.SyncStatus.fromStr (Kioku.transitionStatus .childMutation "synced") = .pendingSync)
    ∧ Kioku.SyncStatus.fromStr (Kioku.transitionStatus .childMutation "synced") ≠ .conflict :=
  no_transition_produces_conflict .childMutation "synced" (by decide)

/-- C7: for a fill-in-blank question with stored answer `ca`,
`grade_answer` compares the submitted text with `ca` byte-for-byte
(no trimming, no case folding): the grade is the exact equality test,
and it is `true` exactly when the submitted answer equals `ca`. -/
theorem fill_in_blank_exact_match
    (db : Kioku.QuizDb) (qid ans ca : String) (q : Kioku.Question)
    (hfind : db.questions.find? (fun q' => q'.id == qid) = some q)
    (hf : q.questionType = "fill_in_blank")
    (hca : q.correctAnswer = some ca) :
    Kioku.gradeAnswer db qid ans = .ok (ca == ans)
    ∧ (Kioku.gradeAnswer db qid ans = .ok true ↔ ans = ca) := by
  have h := Kioku.gradeAnswer_fill ans hfind hf
  rw [hca] at h
  constructor
  · rw [h]
    rfl
  · rw [h]
    simp only [Except.ok.injEq, beq_iff_eq, Option.some.injEq]
    exact eq_comm

/-- C7 witness: with `correctAnswer = "Paris"`, submitting `"Paris"`
grades correct and submitting `"paris"` grades incorrect. -/
theorem fill_in_blank_exact_match_witness :
    Kioku.gradeAnswer Kioku.fibWitDb "q1" "Paris" = .ok true
    ∧ Kioku.gradeAnswer Kioku.fibWitDb "q1" "paris" = .ok false := by
  have h1 := (fill_in_blank_exact_match Kioku.fibWitDb "q1" "Paris" "Paris"
    (Kioku.mkQuestion "q1" "fill_in_blank" (some "Paris")) rfl rfl rfl).2
  have h2 := (fill_in_blank_exact_match Kioku.fibWitDb "q1" "paris" "Paris"
    (Kioku.mkQuestion "q1" "fill_in_blank" (some "Paris")) rfl rfl rfl).1
  exact ⟨h1.mpr rfl, by rw [h2]; rfl⟩

/-- C9: a question stored with a `question_type` string other than
`"fill_in_blank"` or `"multiple_choice"` grades every submitted answer
as incorrect (silently, not as an error), even though `update_question`
accepts and stores an arbitrary `question_type` string. -/
theorem unknown_question_type_grades_false
    (db : Kioku.QuizDb) (qid ans : String) (q : Kioku.Question)
    (hfind : db.questions.find? (fun q' => q'.id == qid) = some q)
    (h1 : q.questionType ≠ "fill_in_blank") (h2 : q.questionType ≠ "multiple_choice") :
    Kioku.gradeAnswer db qid ans = .ok false
    ∧ ∀ (qq : Kioku.Question) (req : Kioku.UpdateQuestionRequest) (now : String),
        (Kioku.updateQuestion qq req now).questionType = req.questionType :=
  ⟨Kioku.gradeAnswer_other hfind h1 h2, fun _ _ _ => rfl⟩

/-- C9 witness: a `"true_false"` question grades even its own stored
`correct_answer` text as incorrect. -/
theorem unknown_question_type_grades_false_witness :
    Kioku.gradeAnswer Kioku.otherTypeDb "q1" "yes" = .ok false :=
  (unknown_question_type_grades_false Kioku.otherTypeDb "q1" "yes"
    (Kioku.mkQuestion "q1" "true_false" (some "yes")) rfl (by decide) (by decide)).1

/-- C10: a user without a stored password hash verifies successfully
against every submitted password (so `login_user` always succeeds for
such a user), while a user with a stored hash is rejected when no
password is supplied (and `login_user` fails with "Invalid password"). -/
theorem passwordless_user_always_verifies
    (hash : String → String) (users : List Kioku.LocalUserRow) (userId : String)
    (u : Kioku.LocalUserRow) (now : String)
    (hfind : users.find? (fun u' => u'.id == userId) = some u) :
    (u.passwordHash = none →
      (∀ password, Kioku.verifyUserPassword hash users userId password = .ok true)
      ∧ ∀ password, Kioku.loginUser hash users userId password now =
          .ok { u with lastLoginAt := some now })
    ∧ (∀ h', u.passwordHash = some h' →
        Kioku.verifyUserPassword hash users userId none = .ok false
        ∧ Kioku.loginUser hash users userId none now = .error "Invalid password") := by
  constructor
  · intro hnone
    have hv : ∀ password, Kioku.verifyUserPassword hash users userId password = .ok true := by
      intro password
      simp [Kioku.verifyUserPassword, hfind, hnone]
    refine ⟨hv, fun password => ?_⟩
    simp [Kioku.loginUser, hv password, hfind]
  · intro h' hsome
    have hv : Kioku.verifyUserPassword hash users userId none = .ok false := by
      simp [Kioku.verifyUserPassword, hfind, hsome]
    exact ⟨hv, by simp [Kioku.loginUser, hv]⟩

/-- C10 witness: user `u1` (no stored hash) verifies with a wrong
non-empty password; user `u2` (stored hash) is rejected when no
password is supplied. -/
theorem passwordless_user_always_verifies_witness :
    Kioku.verifyUserPassword (fun s => s) (Kioku.userWitRows (fun s => s)) "u1"
      (some "wrong") = .ok true
    ∧ Kioku.verifyUserPassword (fun s => s) (Kioku.userWitRows (fun s => s)) "u2"
        none = .ok false := by
  have h1 := passwordless_user_always_verifies (fun s => s)
    (Kioku.userWitRows (fun s => s)) "u1"
    { id := "u1", name := "n1", passwordHash := none, avatar := "avatar-smile",
      createdAt := "t0", lastLoginAt := none } "t1" rfl
  have h2 := passwordless_user_always_verifies (fun s => s)
    (Kioku.userWitRows (fun s => s)) "u2"
    { id := "u2", name := "n2", passwordHash := some "pw", avatar := "avatar-smile",
      createdAt := "t0", lastLoginAt := none } "t1" rfl
  exact ⟨(h1.1 rfl).1 (some "wrong"), (h2.2 "pw" rfl).1⟩

/-- For lists without duplicates, equality of the induced finsets is
exactly permutation equivalence. -/
theorem nodup_toFinset_eq_iff_perm {α : Type} [DecidableEq α] {l1 l2 : List α}
    (h1 : l1.Nodup) (h2 : l2.Nodup) :
    l1.toFinset = l2.toFinset ↔ l1.Perm l2 := by
  constructor
  · intro h
    rw [← Multiset.coe_eq_coe]
    exact Multiset.Nodup.toFinset_inj (by exact_mod_cast h1) (by exact_mod_cast h2) h
  · intro h
    have hm : (l1 : Multiset α) = (l2 : Multiset α) := Multiset.coe_eq_coe.mpr h
    simp only [List.toFinset]
    rw [hm]

/-- C2 (amended): for a multiple-choice question, the grade is `true`
exactly when the parsed submitted identifier list is a permutation
(equal multiset) of the correct choice identifier list; the grade is
invariant under reordering of the submitted identifiers; and when both
lists are duplicate-free this is exactly set equality, with any strict
subset or strict superset grading as incorrect. -/
theorem multiple_choice_grade_amended
    (db : Kioku.QuizDb) (qid ans : String) (q : Kioku.Question) (b : Bool)
    (hfind : db.questions.find? (fun q' => q'.id == qid) = some q)
    (hmc : q.questionType = "multiple_choice")
    (hok : Kioku.gradeAnswer db qid ans = .ok b) :
    (b = true ↔ (Kioku.userIds ans).Perm (Kioku.correctIds db qid))
    ∧ (∀ ans2, (Kioku.userIds ans2).Perm (Kioku.userIds ans) →
        Kioku.gradeAnswer db qid ans2 = .ok b)
    ∧ ((Kioku.userIds ans).Nodup → (Kioku.correctIds db qid).Nodup →
        ((b = true ↔
           (Kioku.userIds ans).toFinset = (Kioku.correctIds db qid).toFinset)
         ∧ ((Kioku.userIds ans).toFinset ⊂ (Kioku.correctIds db qid).toFinset → b = false)
         ∧ ((Kioku.correctIds db qid).toFinset ⊂ (Kioku.userIds ans).toFinset → b = false))) := by
  have h := Kioku.gradeAnswer_mc ans hfind hmc
  rw [h] at hok
  have hb : (Kioku.sortStrings (Kioku.userIds ans) ==
      Kioku.sortStrings (Kioku.correctIds db qid)) = b := by
    injection hok
  have key : b = true ↔ (Kioku.userIds ans).Perm (Kioku.correctIds db qid) := by
    rw [← hb, beq_iff_eq]
    exact Kioku.sortStrings_eq_iff_perm _ _
  refine ⟨key, ?_, ?_⟩
  · intro ans2 hperm
    have h2 := Kioku.gradeAnswer_mc ans2 hfind hmc
    rw [h2, Kioku.sortStrings_eq_iff_perm _ _ |>.mpr hperm, hb]
  · intro hnd1 hnd2
    have keyfin : b = true ↔
        (Kioku.userIds ans).toFinset = (Kioku.correctIds db qid).toFinset :=
      key.trans (nodup_toFinset_eq_iff_perm hnd1 hnd2).symm
    refine ⟨keyfin, ?_, ?_⟩
    · intro hsub
      cases hbv : b
      · rfl
      · rw [keyfin.mp hbv] at hsub
        exact absurd hsub (ssubset_irrefl _)
    · intro hsub
      cases hbv : b
      · rfl
      · rw [keyfin.mp hbv] at hsub
        exact absurd hsub (ssubset_irrefl _)

/-- C2 counterexample: with correct choice set `{a}`, submitting
`"a,a"` grades as incorrect although the *set* of parsed submitted
identifiers equals the correct set — the claim's set-equality iff fails
on duplicate submissions (the code compares sorted lists, i.e.
multisets). -/
theorem multiple_choice_grade_counterexample :
    Kioku.gradeAnswer Kioku.mcCexDb "q1" "a,a" = .ok false
    ∧ Kioku.userIds "a,a" = ["a", "a"]
    ∧ Kioku.correctIds Kioku.mcCexDb "q1" = ["a"]
    ∧ (Kioku.userIds "a,a").toFinset = (Kioku.correctIds Kioku.mcCexDb "q1").toFinset := by
  refine ⟨rfl, rfl, rfl, ?_⟩
  ext x
  simp [List.mem_toFinset, Kioku.userIds, Kioku.correctIds, Kioku.mcCexDb,
    Kioku.splitChar, Kioku.splitCharAux, Kioku.trimStr, Kioku.mkQuestion]

/-- C2 witness: with correct set `{c1, c3}`, submitting `"c1,c3"`
grades correct, and by reorder-invariance so does `"c3, c1"`. -/
theorem multiple_choice_grade_amended_witness :
    Kioku.gradeAnswer Kioku.mcWitDb "q1" "c3, c1" = .ok true := by
  have h := multiple_choice_grade_amended Kioku.mcWitDb "q1" "c1,c3"
    (Kioku.mkQuestion "q1" "multiple_choice" none) true rfl rfl rfl
  exact h.2.1 "c3, c1" (by decide)

/-- C5: the drain query's ordering (`ORDER BY entity_type DESC,
created_at ASC`) yields exactly the queued entries, with no deck entry
after a card entry, and with creation timestamps nondecreasing within
each entity type (FIFO by creation time). -/
theorem drain_order_decks_before_cards_fifo
    (items : List Kioku.SyncQueueItem)
    (h : ∀ it ∈ items, it.entityType = "deck" ∨ it.entityType = "card") :
    (Kioku.drainOrder items).Perm items
    ∧ (Kioku.drainOrder items).Pairwise (fun a b =>
        (a.entityType = "card" → b.entityType = "card")
        ∧ (a.entityType = b.entityType → Kioku.strLe a.createdAt b.createdAt = true)) := by
  refine ⟨Kioku.drainOrder_perm items, ?_⟩
  have hs := Kioku.drainOrder_sorted items
  refine List.Pairwise.imp_of_mem ?_ hs
  intro a b ha hb hle
  have hbmem : b ∈ items := (Kioku.drainOrder_perm items).subset hb
  constructor
  · intro hac
    rcases h b hbmem with hbd | hbc
    · exfalso
      unfold Kioku.syncQueueLe at hle
      rw [hac, hbd] at hle
      rw [if_neg (by decide)] at hle
      rw [show Kioku.strLe "card" "deck" = true from by decide] at hle
      exact absurd hle (by decide)
    · exact hbc
  · intro he
    unfold Kioku.syncQueueLe at hle
    rw [if_pos (by simp [he])] at hle
    exact hle

/-- C5 witness: an interleaved queue of two decks (queue ids 2, 4) and
two cards (queue ids 1, 3) drains as decks first, FIFO within each
type. -/
theorem drain_order_decks_before_cards_fifo_witness :
    ((Kioku.drainOrder Kioku.queueWitItems).Perm Kioku.queueWitItems
      ∧ (Kioku.drainOrder Kioku.queueWitItems).Pairwise (fun a b =>
          (a.entityType = "card" → b.entityType = "card")
          ∧ (a.entityType = b.entityType → Kioku.strLe a.createdAt b.createdAt = true)))
    ∧ (Kioku.drainOrder Kioku.queueWitItems).map (fun it => it.id) = [2, 4, 1, 3] :=
  ⟨drain_order_decks_before_cards_fifo Kioku.queueWitItems (by decide), by decide⟩

/-- C6: during a drain pass, a card's remote deck id resolution prefers
the mapping produced by a deck synced earlier in the same pass over the
previously-persisted `server_id`, falling back to the persisted id;
a card whose deck cannot be resolved is skipped (the replay state is
unchanged, not an error); the pass counts exactly the successfully
replayed entries; only their queue rows are deleted (every entry with
no matching synced triple stays queued for a future pass); and deck and
card rows not named by a successful replay are left untouched by the
phase-3 update. -/
theorem card_resolution_prefers_pass_mapping_and_skips
    (cardDeckIds : String → Option (String × Option Int))
    (deckResp : Kioku.SyncQueueItem → Option Int)
    (cardResp : Kioku.SyncQueueItem → Int → Option Int)
    (items : List Kioku.SyncQueueItem) :
    (∀ (m : List (String × Int)) (eid localId : String) (pers : Option Int) (rid : Int),
       cardDeckIds eid = some (localId, pers) →
       Kioku.lookupMap m localId = some rid →
       Kioku.resolveServerDeckId m cardDeckIds eid = some rid)
    ∧ (∀ (m : List (String × Int)) (eid localId : String) (pers : Option Int),
        cardDeckIds eid = some (localId, pers) →
        Kioku.lookupMap m localId = none →
        Kioku.resolveServerDeckId m cardDeckIds eid = pers)
    ∧ (∀ (st : Kioku.DrainState) (item : Kioku.SyncQueueItem),
        item.entityType = "card" → item.operation = "create" →
        Kioku.resolveServerDeckId st.deckIdMap cardDeckIds item.entityId = none →
        Kioku.drainStep cardDeckIds deckResp cardResp st item = st)
    ∧ Kioku.syncedCount (Kioku.drainPass cardDeckIds deckResp cardResp items) =
        (Kioku.drainPass cardDeckIds deckResp cardResp items).syncedItems.length
    ∧ (∀ it ∈ items,
        (∀ s ∈ (Kioku.drainPass cardDeckIds deckResp cardResp items).syncedItems,
          s.1 ≠ it.id) →
        it ∈ Kioku.remainingQueue items (Kioku.drainPass cardDeckIds deckResp cardResp items))
    ∧ (∀ (decks : List Kioku.DeckRow) (cards : List Kioku.CardRow) (d : Kioku.DeckRow),
        d ∈ decks →
        (∀ s ∈ (Kioku.drainPass cardDeckIds deckResp cardResp items).syncedItems,
          s.2.1 ≠ d.id) →
        d ∈ (Kioku.applySyncResults decks cards
              (Kioku.drainPass cardDeckIds deckResp cardResp items).syncedItems).1)
    ∧ (∀ (decks : List Kioku.DeckRow) (cards : List Kioku.CardRow) (c : Kioku.CardRow),
        c ∈ cards →
        (∀ s ∈ (Kioku.drainPass cardDeckIds deckResp cardResp items).syncedItems,
          s.2.1 ≠ c.id) →
        c ∈ (Kioku.applySyncResults decks cards
              (Kioku.drainPass cardDeckIds deckResp cardResp items).syncedItems).2) := by
  refine ⟨?_, ?_, ?_, rfl, ?_, ?_, ?_⟩
  · intro m eid localId pers rid hinfo hmap
    exact Kioku.resolveServerDeckId_mapped hinfo hmap
  · intro m eid localId pers hinfo hmap
    exact Kioku.resolveServerDeckId_persisted hinfo hmap
  · intro st item het hop hres
    exact Kioku.drainStep_card_skip het hop hres
  · intro it hmem hnot
    exact Kioku.mem_remainingQueue hmem hnot
  · intro decks cards d hd hnot
    exact Kioku.applySyncResults_deck_untouched hd hnot
  · intro decks cards c hc hnot
    exact Kioku.applySyncResults_card_untouched hc hnot

/-- C6 witness: with deck `d1` mapped to remote id `7` earlier in the
pass, card `c1`'s resolution returns `7` (not the stale persisted `3`);
and the orphan card `c2` is skipped, leaving the state unchanged. -/
theorem card_resolution_prefers_pass_mapping_and_skips_witness :
    Kioku.resolveServerDeckId [("d1", 7)] Kioku.syncWitCardInfo "c1" = some 7
    ∧ Kioku.drainStep Kioku.syncWitCardInfo (fun _ => none) (fun _ _ => none)
        ⟨[], []⟩ Kioku.syncWitOrphan = ⟨[], []⟩ := by
  have h := card_resolution_prefers_pass_mapping_and_skips Kioku.syncWitCardInfo
    (fun _ => none) (fun _ _ => none) []
  exact ⟨h.1 [("d1", 7)] "c1" "d1" (some 3) 7 rfl rfl,
         h.2.2.1 ⟨[], []⟩ Kioku.syncWitOrphan rfl rfl rfl⟩

namespace Kioku

theorem wrapI32_eq_self {z : Int} (h1 : -(2 ^ 31) ≤ z) (h2 : z < 2 ^ 31) :
    wrapI32 z = z := by
  unfold wrapI32
  have e32 : (2 : ℤ) ^ 32 = 4294967296 := by norm_num
  have e31 : (2 : ℤ) ^ 31 = 2147483648 := by norm_num
  rw [e32, e31]
  rw [e31] at h1
  rw [e31] at h2
  omega

/-- The one-correct-answer submission used by the witnesses evaluates to
the `scoreWitAttempt` row. -/
theorem scoreWit_submit_eq :
    submitQuizAttempt scoreCexDb scoreCexAttempts1 "a1" scoreWitAnswers 100 =
      .ok (scoreWitAttempt, scoreWitResults) := by
  have hfind : scoreCexAttempts1.find? (fun a => a.id == "a1") =
      some (mkAttempt "a1" 0 1) := rfl
  have hgrade : gradeAnswers scoreCexDb "a1" scoreWitAnswers = .ok scoreWitResults := rfl
  rw [submitQuizAttempt_eq hfind hgrade]
  have hc : scoreWitResults.countP (fun r => r.isCorrect) = 1 := by decide
  simp only [hc]
  norm_num [mkAttempt, scoreWitAttempt, scoreF64_1_1, wrapI32_eq_self]

end Kioku

/-- C1 (amended): a completed attempt stores
`scorePercentage = ((correctAnswers as f64 / totalQuestions as f64) *
100.0).round()` when `totalQuestions > 0` and `0` otherwise;
`correctAnswers` is a nonnegative count; and `0 ≤ scorePercentage ≤ 100`
holds whenever `correctAnswers ≤ totalQuestions` (nothing prevents
submitting more correct answers than the snapshotted total, in which
case the score exceeds 100). -/
theorem submit_score_formula_and_bounds
    (db : Kioku.QuizDb) (attempts : List Kioku.QuizAttemptRow) (attemptId : String)
    (answers : List Kioku.QuestionAnswer) (now : Int)
    (att' : Kioku.QuizAttemptRow) (results : List Kioku.QuestionResultRow)
    (hs : Kioku.submitQuizAttempt db attempts attemptId answers now = .ok (att', results)) :
    att'.scorePercentage =
      (if 0 < att'.totalQuestions
       then Kioku.scoreF64 att'.correctAnswers att'.totalQuestions else 0)
    ∧ 0 ≤ att'.correctAnswers
    ∧ (att'.totalQuestions ≤ 0 → att'.scorePercentage = 0)
    ∧ (att'.correctAnswers ≤ att'.totalQuestions →
        0 ≤ att'.scorePercentage ∧ att'.scorePercentage ≤ 100) := by
  unfold Kioku.submitQuizAttempt at hs
  split at hs
  · exact absurd hs (by simp)
  · rename_i att hfind
    split at hs
    · exact absurd hs (by simp)
    · rename_i rs hgrade
      simp only [Except.ok.injEq, Prod.mk.injEq] at hs
      obtain ⟨heq, hres⟩ := hs
      have hscore : att'.scorePercentage =
          if 0 < att.totalQuestions
          then Kioku.scoreF64 ((rs.countP (fun r => r.isCorrect) : Nat)) att.totalQuestions
          else 0 := by rw [← heq]
      have hcorr : att'.correctAnswers = ((rs.countP (fun r => r.isCorrect) : Nat) : Int) := by
        rw [← heq]
      have htot : att'.totalQuestions = att.totalQuestions := by rw [← heq]
      refine ⟨?_, ?_, ?_, ?_⟩
      · rw [hscore, hcorr, htot]
      · rw [hcorr]
        exact Int.natCast_nonneg _
      · intro h
        rw [htot] at h
        rw [hscore, if_neg (by omega)]
      · intro hct
        rw [hcorr, htot] at hct
        rw [hscore]
        by_cases ht : 0 < att.totalQuestions
        · rw [if_pos ht]
          exact ⟨Kioku.scoreF64_nonneg _ _,
                 Kioku.scoreF64_le_100 (Int.natCast_nonneg _) hct ht⟩
        · rw [if_neg ht]
          norm_num

/-- C1 counterexample: (i) an attempt with 23 correct answers out of a
snapshot of 40 stores `scorePercentage = 57`, while the spec's
`round(23/40*100) = round(57.5) = 58` — the claimed formula fails on
the `f64` tie; (ii) submitting the same question correctly twice
against a snapshot of 1 stores `scorePercentage = 200`, violating the
claimed `0 ≤ scorePercentage ≤ 100`. -/
theorem submit_score_counterexample :
    ((Kioku.submitQuizAttempt Kioku.scoreCexDb Kioku.scoreCexAttempts40 "a1"
        Kioku.scoreCexAnswers40 100).map
      (fun p => (p.1.scorePercentage, p.1.correctAnswers, p.1.totalQuestions))
      = .ok (57, 23, 40))
    ∧ Kioku.specRound 23 40 = 58
    ∧ ((Kioku.submitQuizAttempt Kioku.scoreCexDb Kioku.scoreCexAttempts1 "a1"
        Kioku.scoreCexAnswers2 100).map (fun p => p.1.scorePercentage) = .ok 200)
    ∧ ¬((200 : Int) ≤ 100) := by
  refine ⟨?_, Kioku.specRound_23_40, ?_, by norm_num⟩
  · have hfind : Kioku.scoreCexAttempts40.find? (fun a => a.id == "a1") =
        some (Kioku.mkAttempt "a1" 0 40) := rfl
    have hgrade : Kioku.gradeAnswers Kioku.scoreCexDb "a1" Kioku.scoreCexAnswers40 =
        .ok Kioku.scoreCexResults40 := rfl
    rw [Kioku.submitQuizAttempt_eq hfind hgrade]
    have hc : Kioku.scoreCexResults40.countP (fun r => r.isCorrect) = 23 := by decide
    simp only [Except.map, hc]
    norm_num [Kioku.mkAttempt, Kioku.scoreF64_23_40]
  · have hfind : Kioku.scoreCexAttempts1.find? (fun a => a.id == "a1") =
        some (Kioku.mkAttempt "a1" 0 1) := rfl
    have hgrade : Kioku.gradeAnswers Kioku.scoreCexDb "a1" Kioku.scoreCexAnswers2 =
        .ok Kioku.scoreCexResults2 := rfl
    rw [Kioku.submitQuizAttempt_eq hfind hgrade]
    have hc : Kioku.scoreCexResults2.countP (fun r => r.isCorrect) = 2 := by decide
    simp only [Except.map, hc]
    norm_num [Kioku.mkAttempt, Kioku.scoreF64_2_1]

/-- C1 witness: one correct answer against a snapshot of 1 stores a
score of 100, within the claimed bounds. -/
theorem submit_score_formula_and_bounds_witness :
    Kioku.scoreWitAttempt.scorePercentage = 100
    ∧ 0 ≤ Kioku.scoreWitAttempt.scorePercentage
    ∧ Kioku.scoreWitAttempt.scorePercentage ≤ 100 := by
  have h := submit_score_formula_and_bounds Kioku.scoreCexDb Kioku.scoreCexAttempts1
    "a1" Kioku.scoreWitAnswers 100 Kioku.scoreWitAttempt Kioku.scoreWitResults
    Kioku.scoreWit_submit_eq
  exact ⟨rfl, (h.2.2.2 (by norm_num [Kioku.scoreWitAttempt])).1,
         (h.2.2.2 (by norm_num [Kioku.scoreWitAttempt])).2⟩

/-- C4 (amended): `submit_quiz_attempt` stores
`durationSeconds = (now - startedAt) as i32` with no non-negativity
validation; the stored duration is nonnegative whenever `startedAt ≤
now` and the difference fits in `i32`, but a `startedAt` after `now`
stores a negative duration. -/
theorem submit_duration_unvalidated
    (db : Kioku.QuizDb) (attempts : List Kioku.QuizAttemptRow) (attemptId : String)
    (answers : List Kioku.QuestionAnswer) (now : Int) (att att' : Kioku.QuizAttemptRow)
    (results : List Kioku.QuestionResultRow)
    (hfind : attempts.find? (fun a => a.id == attemptId) = some att)
    (hs : Kioku.submitQuizAttempt db attempts attemptId answers now = .ok (att', results)) :
    att'.durationSeconds = some (Kioku.wrapI32 (now - att.startedAt))
    ∧ (att.startedAt ≤ now → now - att.startedAt < 2 ^ 31 →
        att'.durationSeconds = some (now - att.startedAt)
        ∧ ∀ d, att'.durationSeconds = some d → 0 ≤ d) := by
  unfold Kioku.submitQuizAttempt at hs
  split at hs
  · exact absurd hs (by simp)
  · rename_i att0 hfind0
    rw [hfind] at hfind0
    injection hfind0 with h0
    subst h0
    split at hs
    · exact absurd hs (by simp)
    · rename_i rs hgrade
      simp only [Except.ok.injEq, Prod.mk.injEq] at hs
      obtain ⟨heq, hres⟩ := hs
      have hdur : att'.durationSeconds = some (Kioku.wrapI32 (now - att.startedAt)) := by
        rw [← heq]
      refine ⟨hdur, fun h1 h2 => ?_⟩
      have hw : Kioku.wrapI32 (now - att.startedAt) = now - att.startedAt :=
        Kioku.wrapI32_eq_self (by omega) h2
      rw [hdur, hw]
      exact ⟨rfl, fun d hd => by injection hd with hd'; omega⟩

/-- C4 counterexample: an attempt whose `startedAt` (10) lies after the
submission time `now` (5) completes with `durationSeconds = -5` — the
code stores the negative duration instead of rejecting it. -/
theorem submit_duration_counterexample :
    ((Kioku.submitQuizAttempt Kioku.scoreCexDb Kioku.durCexAttempts "a1" [] 5).map
      (fun p => p.1.durationSeconds) = .ok (some (-5)))
    ∧ ¬(0 ≤ (-5 : Int)) := by
  refine ⟨?_, by norm_num⟩
  have hfind : Kioku.durCexAttempts.find? (fun a => a.id == "a1") =
      some (Kioku.mkAttempt "a1" 10 1) := rfl
  have hgrade : Kioku.gradeAnswers Kioku.scoreCexDb "a1" [] = .ok [] := rfl
  rw [Kioku.submitQuizAttempt_eq hfind hgrade]
  simp only [Except.map]
  norm_num [Kioku.mkAttempt, Kioku.wrapI32]

/-- C4 witness: a submission at `now = 100` of an attempt started at
`0` stores duration `100 ≥ 0`. -/
theorem submit_duration_unvalidated_witness :
    Kioku.scoreWitAttempt.durationSeconds = some 100
    ∧ ∀ d, Kioku.scoreWitAttempt.durationSeconds = some d → 0 ≤ d := by
  have h := submit_duration_unvalidated Kioku.scoreCexDb Kioku.scoreCexAttempts1
    "a1" Kioku.scoreWitAnswers 100 (Kioku.mkAttempt "a1" 0 1) Kioku.scoreWitAttempt
    Kioku.scoreWitResults rfl Kioku.scoreWit_submit_eq
  have h2 := h.2 (by norm_num [Kioku.mkAttempt]) (by norm_num [Kioku.mkAttempt])
  exact ⟨by rw [h2.1]; norm_num [Kioku.mkAttempt], h2.2⟩
